import Mathlib

/-!
Verification development for the JOMOO remote-control protocol decoder
(`src/pd.py`).  The decoder is shallowly embedded: the edge source adapter
(`self.wait({0: ...})` in the source) is modelled as a list of sample
indices handed out one per `wait` call, annotations (`self.put` via
`put_label`) are accumulated in an output list, and the Python exceptions
(`SamplerateError` at decode start, `TypeError` from `int.from_bytes` on a
non-bytes value, `OverflowError` from `int.to_bytes`) are modelled as an
error outcome.  `LOG_DEBUG = 0` in the source, so the `put_debug` calls
never emit anything and are omitted.  The decoder's `self.ss`/`self.es`
bookkeeping never reaches an emitted annotation (all live emissions go
through `put_label` with explicit anchors), so it is not part of the state;
the `decode`-local variables `preable_anchor` and `anchor` are kept in the
state record because the statistics annotation reads them across branches.
Sample counts are natural numbers and millisecond durations are exact
rationals (`interval_ms = 1000 / samplerate`).
-/

namespace JomooRC

/-- Tolerance in percent (`TIME_TOL` in `pd.py`). -/
def TIME_TOL : ℚ := 10

/-- Nominal preamble low-pulse duration in ms (`TIME_PREAMBLE_LOW_MS`). -/
def TIME_PREAMBLE_LOW_MS : ℚ := 4

/-- Nominal preamble high-pulse duration in ms (`TIME_PREAMBLE_HIGH_MS`). -/
def TIME_PREAMBLE_HIGH_MS : ℚ := 8

/-- Nominal bit low-pulse duration in ms (`TIME_LOGIC_LOW`). -/
def TIME_LOGIC_LOW : ℚ := 0.64

/-- Nominal logic-one high-pulse duration in ms (`TIME_ONE_HIGH`). -/
def TIME_ONE_HIGH : ℚ := 1.44

/-- Nominal logic-zero high-pulse duration in ms (`TIME_ZERO_HIGH`). -/
def TIME_ZERO_HIGH : ℚ := 0.48

/-- Expected start byte (`START_CODE = 0x4C`). -/
def START_CODE : Nat := 0x4C

namespace Ann

/-- Annotation class indices from class `Ann` in `pd.py`. -/
def BIT : Nat := 0

def PREAMBLE : Nat := 1

def START : Nat := 2

def DATA : Nat := 3

def STOP : Nat := 4

def ID : Nat := 5

def FUNCTION : Nat := 6

def ARGS : Nat := 7

def SUM : Nat := 8

def INVALID : Nat := 9

def DEBUG : Nat := 10

end Ann

/-- Decoder states, from enum `Status` in `pd.py`. -/
inductive Status where
  | IDLE
  | PREAMBLE
  | START
  | DATA
  | SUM
deriving DecidableEq

/-- Python exceptions that can escape the decode loop. -/
inductive PyErr where
  | samplerateError
  | typeError
  | overflowError
deriving DecidableEq

/-- A Python value as stored in `start_code` or returned by `read_byte`:
either a one-byte `bytes` object (value in [0,255]) or an `int`
(`0` from `reset`, `-1` for an invalid byte). -/
inductive PyVal where
  | pyBytes (v : Nat)
  | pyInt (n : Int)
deriving DecidableEq

/-- Labels attached to an annotation.  Plain display strings are kept
verbatim; the statistics summary (which the source renders into a single
formatted string) keeps its four formatted components structured:
result string, fail count, total count and pass rate. -/
inductive AnnLabels where
  | strs (ls : List String)
  | stat (result : String) (failNum : Nat) (total : Nat) (rate : ℚ)
deriving DecidableEq

/-- One emitted annotation: `self.put(ss, es, self.out_ann, [cls, labels])`. -/
structure Annot where
  ss : Nat
  es : Nat
  cls : Nat
  labels : AnnLabels
deriving DecidableEq

/-- Outcome of running a decoder computation: a result plus the unconsumed
edge stream, exhaustion of the edge stream, or a raised exception. -/
inductive Outc (α : Type) where
  | ok (a : α) (rest : List Nat)
  | stop
  | err (e : PyErr)
deriving DecidableEq

/-- A decoder computation: consumes the edge stream, returns an outcome and
the annotations emitted along the way (kept even when the stream runs out
or an exception is raised). -/
def M (α : Type) : Type := List Nat → Outc α × List Annot

/-- Return a value, consuming nothing and emitting nothing. -/
def mpure {α : Type} (a : α) : M α := fun es => (Outc.ok a es, [])

/-- Sequence two decoder computations, concatenating their annotations. -/
def mbind {α β : Type} (x : M α) (f : α → M β) : M β := fun es =>
  match x es with
  | (Outc.ok a es1, anns) => ((f a es1).1, anns ++ (f a es1).2)
  | (Outc.stop, anns) => (Outc.stop, anns)
  | (Outc.err e, anns) => (Outc.err e, anns)

/-- Edge predicates passed to `self.wait({0: ...})`: falling edge, rising
edge, low level, high level. -/
inductive WaitCond where
  | f
  | r
  | l
  | h
deriving DecidableEq

/-- The edge source adapter: each `wait` call returns the sample index at
which its predicate became true, modelled as the next element of the edge
stream.  An exhausted stream ends the decode. -/
def wait (_c : WaitCond) : M Nat := fun es =>
  match es with
  | [] => (Outc.stop, [])
  | n :: rest => (Outc.ok n rest, [])

/-- Emit one annotation (`put_label` with an explicit anchor). -/
def emit (a : Annot) : M Unit := fun es => (Outc.ok () es, [a])

/-- Raise a Python exception. -/
def raiseErr {α : Type} (e : PyErr) : M α := fun _ => (Outc.err e, [])

/-- Pulse duration in ms: `(end - start) * self.interval_ms`
(`Decoder.calc_pluse_time`). -/
def calc_pluse_time (interval_ms : ℚ) (s e : Nat) : ℚ :=
  ((e : ℚ) - (s : ℚ)) * interval_ms

/-- Timing classifier (`Decoder.check_pluse_time`): inclusive tolerance
window around the nominal duration. -/
def check_pluse_time (measuretime target_time tol : ℚ) : Bool :=
  decide (target_time * (1 - tol / 100) ≤ measuretime ∧
    measuretime ≤ target_time * (1 + tol / 100))

/-- Preamble detector (`Decoder.is_preamble`): falling edge, rising edge
(low pulse), next falling edge (high pulse); returns `1` if both pulses
match the preamble nominals, `-1` otherwise, plus the covering span. -/
def is_preamble (interval_ms : ℚ) : M (Int × (Nat × Nat)) :=
  mbind (wait .f) fun s1 =>
  mbind (wait .r) fun s2 =>
  mbind (wait .f) fun s3 =>
  let low_pluse_times := calc_pluse_time interval_ms s1 s2
  let high_pluse_times := calc_pluse_time interval_ms s2 s3
  mpure
    (if check_pluse_time low_pluse_times TIME_PREAMBLE_LOW_MS TIME_TOL &&
        check_pluse_time high_pluse_times TIME_PREAMBLE_HIGH_MS TIME_TOL then
       ((1 : Int), (s1, s3))
     else ((-1 : Int), (s1, s3)))

/-- Pure classification of one low+high pulse pair, mirroring the branch
structure of `Decoder.read_logic_level`. -/
def bitVal (interval_ms : ℚ) (s1 s2 s3 : Nat) : Int :=
  let low_pluse_times := calc_pluse_time interval_ms s1 s2
  let high_pluse_times := calc_pluse_time interval_ms s2 s3
  if check_pluse_time low_pluse_times TIME_LOGIC_LOW TIME_TOL then
    if check_pluse_time high_pluse_times TIME_ZERO_HIGH TIME_TOL then (0 : Int)
    else if check_pluse_time high_pluse_times TIME_ONE_HIGH TIME_TOL then (1 : Int)
    else (-1 : Int)
  else (-1 : Int)

/-- Bit decoder (`Decoder.read_logic_level`): low level, high level,
falling edge; classifies the two pulse durations into logic 0, logic 1 or
invalid (`-1`), and returns the covering span. -/
def read_logic_level (interval_ms : ℚ) : M (Int × (Nat × Nat)) :=
  mbind (wait .l) fun s1 =>
  mbind (wait .h) fun s2 =>
  mbind (wait .f) fun s3 =>
  mpure (bitVal interval_ms s1 s2 s3, (s1, s3))

/-- Display label for one decoded bit, following the `if/elif/else` in
`Decoder.read_byte`. -/
def bitLabel (lv : Int) : AnnLabels :=
  if lv = 1 then AnnLabels.strs ["1"]
  else if lv = 0 then AnnLabels.strs ["0"]
  else AnnLabels.strs ["Invalid", "I"]

/-- The `for i in range(n)` loop body of `Decoder.read_byte`: decode `n`
bits, emitting each bit's annotation, and return the bit values with their
spans in order. -/
def read_bits (interval_ms : ℚ) : Nat → M (List (Int × (Nat × Nat)))
  | 0 => mpure []
  | n + 1 =>
    mbind (read_logic_level interval_ms) fun r =>
    mbind (emit ⟨r.2.1, r.2.2, Ann.BIT, bitLabel r.1⟩) fun _ =>
    mbind (read_bits interval_ms n) fun rest =>
    mpure (r :: rest)

/-- MSB-first bit packing (`Decoder.logic_to_byte` with `msb=True`): the
binary-string round trip `int(''.join(...), 2)` is left-to-right
accumulation. -/
def logic_to_byte (logic_data : List Nat) : Nat :=
  logic_data.foldl (fun acc b => acc * 2 + b) 0

/-- Whether a decoded bit value is logic 1 or logic 0 (the two branches of
`read_byte` that append to `logic_data`). -/
def isValidBit (lv : Int) : Bool := lv == 1 || lv == 0

/-- Byte assembler (`Decoder.read_byte`): always decodes 8 bits, returns
the packed byte if all are valid and the Python `-1` otherwise, with the
span from the first bit's start to the eighth bit's end. -/
def read_byte (interval_ms : ℚ) : M (PyVal × (Nat × Nat)) :=
  mbind (read_bits interval_ms 8) fun bits =>
  let label_start := (bits.headD ((0 : Int), (0, 0))).2.1
  let label_end := (bits.getLastD ((0 : Int), (0, 0))).2.2
  let logic_data := (bits.filter fun b => isValidBit b.1).map fun b => b.1.toNat
  mpure
    (if bits.all fun b => isValidBit b.1 then PyVal.pyBytes (logic_to_byte logic_data)
     else PyVal.pyInt (-1), (label_start, label_end))

/-- One uppercase hex digit. -/
def hexDigit (n : Nat) : Char :=
  if n < 10 then Char.ofNat (48 + n) else Char.ofNat (55 + n)

/-- Two-digit uppercase hex rendering of a byte value
(`value.hex().upper()` on a one-byte `bytes`). -/
def hexByte (v : Nat) : String :=
  String.mk [hexDigit (v / 16 % 16), hexDigit (v % 16)]

/-- Start-code reader (`Decoder.is_start`): reads one byte, emits the
`Start (0x4C)` label when it matches `START_CODE`, an `Invalid` label
otherwise, and returns the raw value to be stored in `start_code`. -/
def is_start (interval_ms : ℚ) : M PyVal :=
  mbind (read_byte interval_ms) fun r =>
  match r.1 with
  | PyVal.pyBytes v =>
    if v = START_CODE then
      mbind (emit ⟨r.2.1, r.2.2, Ann.START,
        AnnLabels.strs ["Start (0x" ++ hexByte v ++ ")", "Start", "S"]⟩) fun _ =>
      mpure r.1
    else
      mbind (emit ⟨r.2.1, r.2.2, Ann.START, AnnLabels.strs ["Invalid", "I"]⟩) fun _ =>
      mpure r.1
  | PyVal.pyInt _ =>
    mbind (emit ⟨r.2.1, r.2.2, Ann.START, AnnLabels.strs ["Invalid", "I"]⟩) fun _ =>
    mpure r.1

/-- Checksum of the payload (`Decoder.check_sum8`): sum of the byte values
masked to 8 bits (`sum & 0xFF`). -/
def check_sum8 (buffer : List Nat) : Nat :=
  (buffer.foldl (fun acc b => acc + b) 0) &&& 0xFF

/-- Decoder state: instance fields reset by `Decoder.reset`, plus the
`decode`-local variables `preable_anchor` (the span of the most recent
preamble, the packet-start anchor) and `anchor` (the span returned by the
most recent `is_preamble`/`read_byte` call in the `decode` body, which the
statistics annotation reads). -/
structure DecState where
  state : Status
  datas : List Nat
  datas_anchors : List (Nat × Nat)
  start_code : PyVal
  checksum_invalid : Bool
  total : Nat
  pass_num : Nat
  fail_num : Nat
  preable_anchor : Nat × Nat
  lastAnchor : Nat × Nat
deriving DecidableEq

/-- Session-wide context fixed at `decode` start. -/
structure Ctx where
  interval_ms : ℚ
  is_statistic : Bool
  target_data : Nat
deriving DecidableEq

/-- Host-provided configuration: the sample rate (0 when unknown) and the
`target_data` option. -/
structure Config where
  samplerate : Nat
  target_data : Nat
deriving DecidableEq

/-- The `Status.IDLE` branch of `decode`: run the preamble detector,
record its span as the packet-start anchor, emit the preamble label
(`if value:` in the source — note `-1` is truthy in Python), and move on. -/
def idleStep (c : Ctx) (st : DecState) : M DecState :=
  mbind (is_preamble c.interval_ms) fun r =>
  mbind (if r.1 ≠ 0 then
           emit ⟨r.2.1, r.2.2, Ann.PREAMBLE, AnnLabels.strs ["Preamble", "P"]⟩
         else
           emit ⟨r.2.1, r.2.2, Ann.PREAMBLE, AnnLabels.strs ["Invalid", "I"]⟩) fun _ =>
  mpure { st with state := Status.PREAMBLE, preable_anchor := r.2, lastAnchor := r.2 }

/-- The `Status.PREAMBLE` branch of `decode`: read the start code. -/
def preambleStep (c : Ctx) (st : DecState) : M DecState :=
  mbind (is_start c.interval_ms) fun sc =>
  mpure { st with start_code := sc, state := Status.START }

/-- Per-byte labelling inside the `Status.START` loop: a valid byte at
index 0 gets the `Function` label, a valid byte elsewhere the `Args`
label, an invalid byte gets nothing here. -/
def payloadLabel (i : Nat) (r : PyVal × (Nat × Nat)) : M Unit :=
  match r.1 with
  | PyVal.pyBytes v =>
    if i = 0 then emit ⟨r.2.1, r.2.2, Ann.FUNCTION, AnnLabels.strs ["0x" ++ hexByte v]⟩
    else emit ⟨r.2.1, r.2.2, Ann.ARGS, AnnLabels.strs ["0x" ++ hexByte v]⟩
  | PyVal.pyInt _ => mpure ()

/-- The `for i in range(4)` loop of the `Status.START` branch: read `n`
bytes starting at index `i`, labelling each valid one, and return all
results with their spans. -/
def read_datas (interval_ms : ℚ) (i : Nat) : Nat → M (List (PyVal × (Nat × Nat)))
  | 0 => mpure []
  | n + 1 =>
    mbind (read_byte interval_ms) fun r =>
    mbind (payloadLabel i r) fun _ =>
    mbind (read_datas interval_ms (i + 1) n) fun rest =>
    mpure (r :: rest)

/-- The byte value of a valid read, `none` for an invalid one. -/
def pyValValid : PyVal → Option Nat
  | PyVal.pyBytes v => some v
  | PyVal.pyInt _ => none

/-- The `Status.START` branch of `decode`: reset the payload lists, read 4
payload bytes (only valid ones are appended to `datas`/`datas_anchors`),
emit the aggregate `Data[0-3]` label spanning the first byte's start to
the fourth byte's end, and move to `Status.DATA`. -/
def startStep (c : Ctx) (st : DecState) : M DecState :=
  mbind (read_datas c.interval_ms 0 4) fun results =>
  let label_start := (results.headD (PyVal.pyInt 0, (0, 0))).2.1
  let label_end := (results.getLastD (PyVal.pyInt 0, (0, 0))).2.2
  mbind (emit ⟨label_start, label_end, Ann.DATA, AnnLabels.strs ["Data[0-3]", "D"]⟩) fun _ =>
  let valids := results.filter fun r => (pyValValid r.1).isSome
  mpure { st with
    datas := results.filterMap fun r => pyValValid r.1,
    datas_anchors := valids.map fun r => r.2,
    lastAnchor := (results.getLastD (PyVal.pyInt 0, (0, 0))).2,
    state := Status.DATA }

/-- The `Status.DATA` branch of `decode`: read the checksum byte; when it
is valid, compare `check_sum8(datas)` with it, store the match result in
`checksum_invalid` (the source's name for the checksum-valid flag) and
emit the matching/invalid checksum label; when the byte itself is invalid,
do nothing (the flag keeps its previous value).  Move to `Status.SUM`. -/
def dataStep (c : Ctx) (st : DecState) : M DecState :=
  mbind (read_byte c.interval_ms) fun r =>
  match r.1 with
  | PyVal.pyBytes v =>
    let ck := check_sum8 st.datas == v
    mbind (if ck then
             emit ⟨r.2.1, r.2.2, Ann.DATA, AnnLabels.strs ["CHECKSUM 0x" ++ hexByte v]⟩
           else
             emit ⟨r.2.1, r.2.2, Ann.DATA,
               AnnLabels.strs ["CHECKSUM Invalid", "Invalid", "I"]⟩) fun _ =>
    mpure { st with checksum_invalid := ck, lastAnchor := r.2, state := Status.SUM }
  | PyVal.pyInt _ =>
    mpure { st with lastAnchor := r.2, state := Status.SUM }

/-- Big-endian 4-byte encoding (`int.to_bytes(4, 'big')`), which raises
`OverflowError` for values that do not fit. -/
def toBytes4 (n : Nat) : Option (List Nat) :=
  if n < 2 ^ 32 then some [n / 2 ^ 24 % 256, n / 2 ^ 16 % 256, n / 2 ^ 8 % 256, n % 256]
  else none

/-- The short-circuit conjunction
`(read_bytes == target_bytes) and checksum_invalid and
(int.from_bytes(start_code,'big') == START_CODE)` of the statistics
branch.  `int.from_bytes` raises `TypeError` when `start_code` is an
`int` (the `-1` stored for an invalid start byte), but only when the first
two conjuncts hold. -/
def statPassCond (st : DecState) (target_bytes : List Nat) : Except PyErr Bool :=
  if st.datas = target_bytes then
    if st.checksum_invalid then
      match st.start_code with
      | PyVal.pyBytes v => Except.ok (v == START_CODE)
      | PyVal.pyInt _ => Except.error PyErr.typeError
    else Except.ok false
  else Except.ok false

/-- The `Status.SUM` branch of `decode`: wait for the terminating rising
edge, increment `total`, and when statistics are enabled compare payload,
checksum flag and start code against the target, increment the pass or
fail counter, and emit the statistics summary spanning the preamble start
anchor to the last stored span's end.  Return to `Status.IDLE`. -/
def sumStep (c : Ctx) (st : DecState) : M DecState :=
  mbind (wait .r) fun _n =>
  let st1 : DecState := { st with total := st.total + 1 }
  if c.is_statistic then
    match toBytes4 c.target_data with
    | none => raiseErr PyErr.overflowError
    | some target_bytes =>
      match statPassCond st1 target_bytes with
      | Except.error e => raiseErr e
      | Except.ok passed =>
        let st2 : DecState :=
          if passed then { st1 with pass_num := st1.pass_num + 1 }
          else { st1 with fail_num := st1.fail_num + 1 }
        let result_str : String := if passed then "PASS" else "FAIL"
        let rate : ℚ := (st2.pass_num : ℚ) / (st2.total : ℚ) * 100
        mbind (emit ⟨st1.preable_anchor.1, st1.lastAnchor.2, Ann.DEBUG,
          AnnLabels.stat result_str st2.fail_num st2.total rate⟩) fun _ =>
        mpure { st2 with state := Status.IDLE }
  else
    mpure { st1 with state := Status.IDLE }

/-- One iteration of the `while True` loop of `Decoder.decode`. -/
def decodeStep (c : Ctx) (st : DecState) : M DecState :=
  match st.state with
  | Status.IDLE => idleStep c st
  | Status.PREAMBLE => preambleStep c st
  | Status.START => startStep c st
  | Status.DATA => dataStep c st
  | Status.SUM => sumStep c st

/-- Run `fuel` iterations of the decode loop (the Python loop only ends
when the edge source is exhausted). -/
def decodeLoop (c : Ctx) : Nat → DecState → M DecState
  | 0, st => mpure st
  | n + 1, st => mbind (decodeStep c st) fun st' => decodeLoop c n st'

/-- Initial decoder state (`Decoder.reset`). -/
def initState : DecState :=
  { state := Status.IDLE, datas := [], datas_anchors := [],
    start_code := PyVal.pyInt 0, checksum_invalid := false,
    total := 0, pass_num := 0, fail_num := 0,
    preable_anchor := (0, 0), lastAnchor := (0, 0) }

/-- Session context computed at the top of `Decoder.decode`. -/
def mkCtx (cfg : Config) : Ctx :=
  { interval_ms := 1000 / (cfg.samplerate : ℚ),
    is_statistic := if cfg.target_data = 0 then false else true,
    target_data := cfg.target_data }

/-- `Decoder.decode`: fail at once when the sample rate is unknown,
otherwise run the state-machine loop on the edge stream. -/
def decode (cfg : Config) (fuel : Nat) : M DecState := fun edges =>
  if cfg.samplerate = 0 then (Outc.err PyErr.samplerateError, [])
  else decodeLoop (mkCtx cfg) fuel initState edges

/-! Statement-side vocabulary used by the theorems below. -/

/-- The edge samples consumed by one bit read, as a (low-start, low-end,
high-end) triple. -/
def tripleEdges (t : Nat × Nat × Nat) : List Nat := [t.1, t.2.1, t.2.2]

/-- The edge samples consumed by a run of bit reads. -/
def triplesEdges : List (Nat × Nat × Nat) → List Nat
  | [] => []
  | t :: ts => t.1 :: t.2.1 :: t.2.2 :: triplesEdges ts

/-- A decoded bit value is valid when it is logic 1 or logic 0. -/
def validBit (lv : Int) : Prop := lv = 1 ∨ lv = 0

instance (lv : Int) : Decidable (validBit lv) := by
  unfold validBit
  infer_instance

/-- Every annotation in the list has a well-ordered span. -/
def annsLE (l : List Annot) : Prop := ∀ a ∈ l, a.ss ≤ a.es

/-- The span discipline claimed for the emitter: well-ordered spans that
are pairwise non-overlapping and non-decreasing in emission order. -/
def spansOrdered (l : List Annot) : Prop :=
  (∀ a ∈ l, a.ss ≤ a.es) ∧ l.Chain' fun a b => a.es ≤ b.ss

/-- A list of spans that starts no earlier than `lo`, is internally
chained (each span well-ordered and ending before the next begins), and
ends no later than `hi`. -/
def anchorsChained (lo : Nat) : List (Nat × Nat) → Nat → Prop
  | [], hi => lo ≤ hi
  | a :: rest, hi => lo ≤ a.1 ∧ a.1 ≤ a.2 ∧ anchorsChained a.2 rest hi

/-- Invariant carried across decode steps: the stored packet-start anchor
begins no later than the last stored span ends, and that span ends no
later than the current stream position. -/
def stateWF (st : DecState) (lo : Nat) : Prop :=
  st.preable_anchor.1 ≤ st.lastAnchor.2 ∧ st.lastAnchor.2 ≤ lo

/-- Specification format for decoder computations run against a sorted
edge stream positioned at `lo`: all annotations have well-ordered spans,
and on success the stream moves forward to some `hi` about which the
postcondition `P` speaks. -/
def MGoodAt {α : Type} (lo : Nat) (x : M α) (P : α → Nat → Prop) : Prop :=
  ∀ edges, List.Sorted (· ≤ ·) edges → (∀ e ∈ edges, lo ≤ e) →
    annsLE (x edges).2 ∧
    ∀ a rest, (x edges).1 = Outc.ok a rest →
      ∃ hi, lo ≤ hi ∧ List.Sorted (· ≤ ·) rest ∧ (∀ e ∈ rest, hi ≤ e) ∧ P a hi

/-- The annotations `payloadLabel` emits, as a plain list. -/
def plList (i : Nat) (r : PyVal × (Nat × Nat)) : List Annot :=
  match r.1 with
  | PyVal.pyBytes v =>
    if i = 0 then [⟨r.2.1, r.2.2, Ann.FUNCTION, AnnLabels.strs ["0x" ++ hexByte v]⟩]
    else [⟨r.2.1, r.2.2, Ann.ARGS, AnnLabels.strs ["0x" ++ hexByte v]⟩]
  | PyVal.pyInt _ => []

/-! Concrete pulse trains used as test inputs.  All of them assume a
sample rate of 100000 samples/s, i.e. 0.01 ms per sample: a bit's low
pulse is 64 samples, a logic-zero high pulse 48 samples, a logic-one high
pulse 144 samples, the preamble pulses 400 and 800 samples. -/

/-- Samples spanned by the high pulse of one nominal bit. -/
def bitDur (b : Bool) : Nat := if b then 144 else 48

/-- Edge stream of a run of nominal bits starting at sample `t`. -/
def bitsEdges (t : Nat) : List Bool → List Nat
  | [] => []
  | b :: rest => t :: (t + 64) :: (t + 64 + bitDur b) :: bitsEdges (t + 64 + bitDur b) rest

/-- Final sample of a run of nominal bits starting at sample `t`. -/
def bitsEnd (t : Nat) : List Bool → Nat
  | [] => t
  | b :: rest => bitsEnd (t + 64 + bitDur b) rest

/-- The 8 bits of a byte value, most significant first. -/
def byteBits (v : Nat) : List Bool :=
  [v.testBit 7, v.testBit 6, v.testBit 5, v.testBit 4,
   v.testBit 3, v.testBit 2, v.testBit 1, v.testBit 0]

/-- All 48 bits of a packet: start code, 4 payload bytes, checksum. -/
def packetBits (s d0 d1 d2 d3 ck : Nat) : List Bool :=
  byteBits s ++ byteBits d0 ++ byteBits d1 ++ byteBits d2 ++ byteBits d3 ++ byteBits ck

/-- Edge stream of one fully valid packet starting at sample `t`: nominal
preamble, start code 0x4C, payload 1,2,3,4, checksum 10, and the final
rising edge. -/
def goodPacketEdges (t : Nat) : List Nat :=
  t :: (t + 400) :: (t + 1200) ::
    (bitsEdges (t + 1200) (packetBits 0x4C 1 2 3 4 10) ++
     [bitsEnd (t + 1200) (packetBits 0x4C 1 2 3 4 10)])

/-- End sample of `goodPacketEdges t`. -/
def goodPacketEnd (t : Nat) : Nat := bitsEnd (t + 1200) (packetBits 0x4C 1 2 3 4 10)

/-- Edge stream of one byte whose first bit has an out-of-tolerance low
pulse (0.1 ms instead of 0.64 ms) followed by 7 nominal zero bits. -/
def badByteEdges (t : Nat) : List Nat :=
  t :: (t + 10) :: (t + 58) ::
    bitsEdges (t + 58) [false, false, false, false, false, false, false]

/-- End sample of `badByteEdges t`. -/
def badByteEnd (t : Nat) : Nat := t + 58 + 7 * 112

/-- Bits of the start code and payload only (40 bits). -/
def headBits : List Bool :=
  byteBits 0x4C ++ byteBits 1 ++ byteBits 2 ++ byteBits 3 ++ byteBits 4

/-- Two packets back to back: a fully valid one, then one identical except
that its checksum byte fails to decode. -/
def twoPacketEdges : List Nat :=
  goodPacketEdges 0 ++
    (goodPacketEnd 0 :: (goodPacketEnd 0 + 400) :: (goodPacketEnd 0 + 1200) ::
      (bitsEdges (goodPacketEnd 0 + 1200) headBits ++
       badByteEdges (bitsEnd (goodPacketEnd 0 + 1200) headBits) ++
       [badByteEnd (bitsEnd (goodPacketEnd 0 + 1200) headBits)]))

/-- A packet whose start byte fails to decode but whose payload and
checksum are valid: with statistics enabled and a matching target this
drives `int.from_bytes` into its `TypeError`. -/
def crashEdges : List Nat :=
  0 :: 400 :: 1200 ::
    (badByteEdges 1200 ++
     bitsEdges (badByteEnd 1200) (byteBits 1 ++ byteBits 2 ++ byteBits 3 ++ byteBits 4 ++ byteBits 10) ++
     [bitsEnd (badByteEnd 1200) (byteBits 1 ++ byteBits 2 ++ byteBits 3 ++ byteBits 4 ++ byteBits 10)])

/-- A nominal preamble followed by a valid 0x4C start byte (used to show
the start-code label overlapping its bit labels). -/
def c4Edges : List Nat :=
  0 :: 400 :: 1200 :: bitsEdges 1200 (byteBits 0x4C)

/-- End of the first payload byte (value 5) in the C7 witness stream. -/
def w7n1 : Nat := bitsEnd 0 (byteBits 5)

/-- End of the second (invalid) payload byte in the C7 witness stream. -/
def w7n2 : Nat := badByteEnd w7n1

/-- End of the third payload byte (value 7) in the C7 witness stream. -/
def w7n3 : Nat := bitsEnd w7n2 (byteBits 7)

/-- End of the fourth payload byte (value 9) in the C7 witness stream. -/
def w7n4 : Nat := bitsEnd w7n3 (byteBits 9)

/-- Payload edge stream for the C7 witness: bytes 5, invalid, 7, 9. -/
def w7e0 : List Nat :=
  bitsEdges 0 (byteBits 5) ++
    (badByteEdges w7n1 ++ (bitsEdges w7n2 (byteBits 7) ++ bitsEdges w7n3 (byteBits 9)))

/-- The C7 witness stream after the first byte. -/
def w7e1 : List Nat :=
  badByteEdges w7n1 ++ (bitsEdges w7n2 (byteBits 7) ++ bitsEdges w7n3 (byteBits 9))

/-- The C7 witness stream after the second byte. -/
def w7e2 : List Nat := bitsEdges w7n2 (byteBits 7) ++ bitsEdges w7n3 (byteBits 9)

/-- The C7 witness stream after the third byte. -/
def w7e3 : List Nat := bitsEdges w7n3 (byteBits 9)

/-- The final state of a successful run, if any. -/
def okState {α : Type} (o : Outc α × List Annot) : Option α :=
  match o.1 with
  | Outc.ok a _ => some a
  | Outc.stop => none
  | Outc.err _ => none

/-- A state about to take the Checksum-to-Idle transition, carrying
packet-scoped values (used by the C3 witness). -/
def c3wState : DecState :=
  { initState with state := Status.SUM, datas := [9], checksum_invalid := true }

/-- The state `c3wState` reaches after the Checksum-to-Idle transition. -/
def c3wState' : DecState :=
  { initState with
    state := Status.IDLE, datas := [9], checksum_invalid := true, total := 1 }

instance (l : List Annot) : Decidable (spansOrdered l) :=
  have : DecidableRel fun a b : Annot => a.es ≤ b.ss := fun a b => Nat.decLe a.es b.ss
  inferInstanceAs (Decidable ((∀ a ∈ l, a.ss ≤ a.es) ∧
    List.Chain' (fun a b : Annot => a.es ≤ b.ss) l))

/-! Helper lemmas shared by several claim proofs. -/

theorem mbind_ok {α β : Type} {x : M α} {f : α → M β} {es es1 : List Nat}
    {a : α} {anns : List Annot} (h : x es = (Outc.ok a es1, anns)) :
    mbind x f es = ((f a es1).1, anns ++ (f a es1).2) := by
  simp only [mbind]
  rw [h]

theorem tol10_iff (m n : ℚ) :
    check_pluse_time m n TIME_TOL = true ↔ n * (9 / 10) ≤ m ∧ m ≤ n * (11 / 10) := by
  have h9 : n * (1 - TIME_TOL / 100) = n * (9 / 10) := by norm_num [TIME_TOL]
  have h11 : n * (1 + TIME_TOL / 100) = n * (11 / 10) := by norm_num [TIME_TOL]
  simp only [check_pluse_time, decide_eq_true_eq, h9, h11]

theorem read_logic_level_eq (interval_ms : ℚ) (s1 s2 s3 : Nat) (rest : List Nat) :
    read_logic_level interval_ms (s1 :: s2 :: s3 :: rest) =
      (Outc.ok (bitVal interval_ms s1 s2 s3, (s1, s3)) rest, []) := rfl

/-- Claim C10: for every measured duration, nominal duration and tolerance,
the timing classifier accepts iff the measured value lies in the inclusive
window `[nominal*(1 - tol/100), nominal*(1 + tol/100)]`; at the default
10% tolerance exactly `n*0.9` and `n*1.1` are accepted and anything
strictly outside that interval is rejected. -/
theorem check_pluse_time_C10 (m n t : ℚ) (hn : 0 ≤ n) :
    (check_pluse_time m n t = true ↔
      n * (1 - t / 100) ≤ m ∧ m ≤ n * (1 + t / 100)) ∧
    check_pluse_time (n * (9 / 10)) n TIME_TOL = true ∧
    check_pluse_time (n * (11 / 10)) n TIME_TOL = true ∧
    ∀ m' : ℚ, (m' < n * (9 / 10) ∨ n * (11 / 10) < m') →
      check_pluse_time m' n TIME_TOL = false := by
  refine ⟨by simp only [check_pluse_time, decide_eq_true_eq], ?_, ?_, ?_⟩
  · rw [tol10_iff]
    exact ⟨le_refl _, by nlinarith⟩
  · rw [tol10_iff]
    exact ⟨by nlinarith, le_refl _⟩
  · intro m' hm'
    rcases Bool.eq_false_or_eq_true (check_pluse_time m' n TIME_TOL) with ht | hf
    · exfalso
      rcases (tol10_iff m' n).1 ht with ⟨hl, hr⟩
      rcases hm' with h | h
      · linarith
      · linarith
    · exact hf

theorem check_pluse_time_C10_witness :
    (0 : ℚ) ≤ 4 ∧ check_pluse_time (4 * (9 / 10)) 4 TIME_TOL = true :=
  ⟨by norm_num, (check_pluse_time_C10 0 4 TIME_TOL (by norm_num)).2.1⟩

/-- Claim C9: on any low+high pulse pair (three edges), the bit decoder
returns Invalid (`-1`) when the low-pulse duration is outside 0.64 ms
± 10%; otherwise logic 0 when the high-pulse duration is within 0.48 ms
± 10%, logic 1 when it is within 1.44 ms ± 10%, and Invalid otherwise. -/
theorem read_logic_level_C9 (interval_ms : ℚ) (s1 s2 s3 : Nat) (rest : List Nat) :
    read_logic_level interval_ms (s1 :: s2 :: s3 :: rest) =
      (Outc.ok
        ((if TIME_LOGIC_LOW * (9 / 10) ≤ calc_pluse_time interval_ms s1 s2 ∧
             calc_pluse_time interval_ms s1 s2 ≤ TIME_LOGIC_LOW * (11 / 10) then
            if TIME_ZERO_HIGH * (9 / 10) ≤ calc_pluse_time interval_ms s2 s3 ∧
               calc_pluse_time interval_ms s2 s3 ≤ TIME_ZERO_HIGH * (11 / 10) then (0 : Int)
            else if TIME_ONE_HIGH * (9 / 10) ≤ calc_pluse_time interval_ms s2 s3 ∧
               calc_pluse_time interval_ms s2 s3 ≤ TIME_ONE_HIGH * (11 / 10) then 1
            else -1
          else -1, (s1, s3)))
        rest, []) := by
  rw [read_logic_level_eq]
  simp only [bitVal, tol10_iff]

theorem read_bits_spec (interval_ms : ℚ) (ts : List (Nat × Nat × Nat)) (rest : List Nat) :
    read_bits interval_ms ts.length (triplesEdges ts ++ rest) =
      (Outc.ok (ts.map fun t => (bitVal interval_ms t.1 t.2.1 t.2.2, (t.1, t.2.2))) rest,
       ts.map fun t =>
         ⟨t.1, t.2.2, Ann.BIT, bitLabel (bitVal interval_ms t.1 t.2.1 t.2.2)⟩) := by
  induction ts with
  | nil => rfl
  | cons t ts ih =>
    have h1 : read_logic_level interval_ms (triplesEdges (t :: ts) ++ rest) =
        (Outc.ok (bitVal interval_ms t.1 t.2.1 t.2.2, (t.1, t.2.2))
          (triplesEdges ts ++ rest), []) := rfl
    have h2 : emit ⟨t.1, t.2.2, Ann.BIT, bitLabel (bitVal interval_ms t.1 t.2.1 t.2.2)⟩
        (triplesEdges ts ++ rest) =
        (Outc.ok () (triplesEdges ts ++ rest),
         [⟨t.1, t.2.2, Ann.BIT, bitLabel (bitVal interval_ms t.1 t.2.1 t.2.2)⟩]) := rfl
    show read_bits interval_ms (ts.length + 1) (triplesEdges (t :: ts) ++ rest) = _
    rw [read_bits, mbind_ok h1]
    simp only
    rw [mbind_ok h2]
    simp only
    rw [mbind_ok ih]
    simp [mpure, List.map_cons]

theorem isValidBit_of_validBit {v : Int} (h : validBit v) : isValidBit v = true := by
  rcases h with h | h <;> subst h <;> rfl

/-- Claim C8: the byte assembler always decodes exactly 8 bit symbols
(emitting all 8 bit annotations, consuming exactly their edges), returns
Invalid iff at least one symbol is Invalid, packs the bits MSB-first when
all are valid, and spans from the first symbol's start to the eighth
symbol's end. -/
theorem read_byte_C8 (interval_ms : ℚ) (t1 t2 t3 t4 t5 t6 t7 t8 : Nat × Nat × Nat)
    (rest : List Nat) :
    read_byte interval_ms (triplesEdges [t1, t2, t3, t4, t5, t6, t7, t8] ++ rest) =
      (Outc.ok
        (if validBit (bitVal interval_ms t1.1 t1.2.1 t1.2.2) ∧
            validBit (bitVal interval_ms t2.1 t2.2.1 t2.2.2) ∧
            validBit (bitVal interval_ms t3.1 t3.2.1 t3.2.2) ∧
            validBit (bitVal interval_ms t4.1 t4.2.1 t4.2.2) ∧
            validBit (bitVal interval_ms t5.1 t5.2.1 t5.2.2) ∧
            validBit (bitVal interval_ms t6.1 t6.2.1 t6.2.2) ∧
            validBit (bitVal interval_ms t7.1 t7.2.1 t7.2.2) ∧
            validBit (bitVal interval_ms t8.1 t8.2.1 t8.2.2) then
           PyVal.pyBytes
             (128 * (bitVal interval_ms t1.1 t1.2.1 t1.2.2).toNat +
              64 * (bitVal interval_ms t2.1 t2.2.1 t2.2.2).toNat +
              32 * (bitVal interval_ms t3.1 t3.2.1 t3.2.2).toNat +
              16 * (bitVal interval_ms t4.1 t4.2.1 t4.2.2).toNat +
              8 * (bitVal interval_ms t5.1 t5.2.1 t5.2.2).toNat +
              4 * (bitVal interval_ms t6.1 t6.2.1 t6.2.2).toNat +
              2 * (bitVal interval_ms t7.1 t7.2.1 t7.2.2).toNat +
              (bitVal interval_ms t8.1 t8.2.1 t8.2.2).toNat)
         else PyVal.pyInt (-1), (t1.1, t8.2.2))
        rest,
       [t1, t2, t3, t4, t5, t6, t7, t8].map fun t =>
         ⟨t.1, t.2.2, Ann.BIT, bitLabel (bitVal interval_ms t.1 t.2.1 t.2.2)⟩) := by
  have hs := read_bits_spec interval_ms [t1, t2, t3, t4, t5, t6, t7, t8] rest
  simp only [List.length_cons, List.length_nil, Nat.zero_add, Nat.reduceAdd] at hs
  rw [read_byte, mbind_ok hs]
  simp only [List.map_cons, List.map_nil, List.headD_cons, List.getLastD_cons]
  have hiff : ((([t1, t2, t3, t4, t5, t6, t7, t8].map fun t =>
      ((bitVal interval_ms t.1 t.2.1 t.2.2, (t.1, t.2.2)) : Int × (Nat × Nat))).all
        fun b => isValidBit b.1) = true) ↔
      (validBit (bitVal interval_ms t1.1 t1.2.1 t1.2.2) ∧
       validBit (bitVal interval_ms t2.1 t2.2.1 t2.2.2) ∧
       validBit (bitVal interval_ms t3.1 t3.2.1 t3.2.2) ∧
       validBit (bitVal interval_ms t4.1 t4.2.1 t4.2.2) ∧
       validBit (bitVal interval_ms t5.1 t5.2.1 t5.2.2) ∧
       validBit (bitVal interval_ms t6.1 t6.2.1 t6.2.2) ∧
       validBit (bitVal interval_ms t7.1 t7.2.1 t7.2.2) ∧
       validBit (bitVal interval_ms t8.1 t8.2.1 t8.2.2)) := by
    simp [isValidBit, validBit, List.all_cons, Bool.and_eq_true, Bool.or_eq_true, beq_iff_eq]
  by_cases hP : validBit (bitVal interval_ms t1.1 t1.2.1 t1.2.2) ∧
      validBit (bitVal interval_ms t2.1 t2.2.1 t2.2.2) ∧
      validBit (bitVal interval_ms t3.1 t3.2.1 t3.2.2) ∧
      validBit (bitVal interval_ms t4.1 t4.2.1 t4.2.2) ∧
      validBit (bitVal interval_ms t5.1 t5.2.1 t5.2.2) ∧
      validBit (bitVal interval_ms t6.1 t6.2.1 t6.2.2) ∧
      validBit (bitVal interval_ms t7.1 t7.2.1 t7.2.2) ∧
      validBit (bitVal interval_ms t8.1 t8.2.1 t8.2.2)
  · obtain ⟨v1, v2, v3, v4, v5, v6, v7, v8⟩ := hP
    have b1 := isValidBit_of_validBit v1
    have b2 := isValidBit_of_validBit v2
    have b3 := isValidBit_of_validBit v3
    have b4 := isValidBit_of_validBit v4
    have b5 := isValidBit_of_validBit v5
    have b6 := isValidBit_of_validBit v6
    have b7 := isValidBit_of_validBit v7
    have b8 := isValidBit_of_validBit v8
    simp only [mpure, List.all_cons, List.all_nil, b1, b2, b3, b4, b5, b6, b7, b8,
      Bool.and_self, Bool.true_and, if_true, List.filter_cons, List.filter_nil,
      List.map_cons, List.map_nil, logic_to_byte, List.foldl_cons, List.foldl_nil,
      List.getLastD_cons, List.getLastD_nil]
    rw [if_pos ⟨v1, v2, v3, v4, v5, v6, v7, v8⟩]
    simp only [List.append_nil]
    ring_nf
  · rcases Bool.eq_false_or_eq_true
        ((([t1, t2, t3, t4, t5, t6, t7, t8].map fun t =>
          ((bitVal interval_ms t.1 t.2.1 t.2.2, (t.1, t.2.2)) : Int × (Nat × Nat))).all
            fun b => isValidBit b.1)) with ha | ha
    · exact absurd (hiff.1 ha) hP
    · simp only [List.map_cons, List.map_nil] at ha
      simp only [mpure, ha, Bool.false_eq_true, if_false,
        List.getLastD_cons, List.getLastD_nil, List.append_nil]
      rw [if_neg hP]

theorem check_sum8_eq_mod (buffer : List Nat) :
    check_sum8 buffer = (buffer.foldl (fun acc b => acc + b) 0) % 256 := by
  have h : (0xFF : Nat) = 2 ^ 8 - 1 := by norm_num
  rw [check_sum8, h, Nat.and_pow_two_sub_one_eq_mod]

/-- Claim C5: the checksum step computes `sum(payload bytes) mod 256`;
when the checksum byte decodes to a value `v` it emits `CHECKSUM 0xNN`
iff that sum equals `v` and `CHECKSUM Invalid` otherwise, storing the
comparison result as the packet's checksum flag; when the checksum byte
is itself Invalid, no comparison is made and no checksum annotation is
emitted. -/
theorem checksum_C5 (c : Ctx) (st : DecState) (edges : List Nat) :
    check_sum8 st.datas = (st.datas.foldl (fun acc b => acc + b) 0) % 256 ∧
    (∀ v a rest anns,
        read_byte c.interval_ms edges = (Outc.ok (PyVal.pyBytes v, a) rest, anns) →
        dataStep c st edges =
          (Outc.ok
            { st with
              checksum_invalid := (check_sum8 st.datas == v),
              lastAnchor := a, state := Status.SUM } rest,
           anns ++ [⟨a.1, a.2, Ann.DATA,
             if (st.datas.foldl (fun acc b => acc + b) 0) % 256 = v then
               AnnLabels.strs ["CHECKSUM 0x" ++ hexByte v]
             else AnnLabels.strs ["CHECKSUM Invalid", "Invalid", "I"]⟩])) ∧
    (∀ n a rest anns,
        read_byte c.interval_ms edges = (Outc.ok (PyVal.pyInt n, a) rest, anns) →
        dataStep c st edges =
          (Outc.ok { st with lastAnchor := a, state := Status.SUM } rest, anns)) := by
  refine ⟨check_sum8_eq_mod st.datas, ?_, ?_⟩
  · intro v a rest anns h
    rw [dataStep, mbind_ok h]
    have hr : ((st.datas.foldl (fun acc b => acc + b) 0) % 256 = v) ↔
        (check_sum8 st.datas = v) := by rw [check_sum8_eq_mod]
    by_cases hv : check_sum8 st.datas = v
    · have hb : (check_sum8 st.datas == v) = true := by simp [hv]
      simp only [hb, if_true, hr, hv, mbind, emit, mpure]
      simp [emit]
    · have hb : (check_sum8 st.datas == v) = false := by simp [hv]
      simp only [hb, Bool.false_eq_true, if_false, mbind, emit, mpure]
      rw [if_neg fun hh => hv (hr.mp hh)]
      simp [emit]
  · intro n a rest anns h
    rw [dataStep, mbind_ok h]
    simp [mpure]

theorem checksum_C5_witness :
    read_byte ((1 : ℚ) / 100) (bitsEdges 0 (byteBits 10)) =
      (Outc.ok (PyVal.pyBytes 10, (0, 1088)) [],
       (read_byte ((1 : ℚ) / 100) (bitsEdges 0 (byteBits 10))).2) ∧
    dataStep ⟨(1 : ℚ) / 100, false, 0⟩ { initState with datas := [1, 2, 3, 4] }
        (bitsEdges 0 (byteBits 10)) =
      (Outc.ok
        { initState with
          datas := [1, 2, 3, 4],
          checksum_invalid := (check_sum8 [1, 2, 3, 4] == 10),
          lastAnchor := (0, 1088), state := Status.SUM } [],
       (read_byte ((1 : ℚ) / 100) (bitsEdges 0 (byteBits 10))).2 ++
         [⟨0, 1088, Ann.DATA,
           if (([1, 2, 3, 4] : List Nat).foldl (fun acc b => acc + b) 0) % 256 = 10 then
             AnnLabels.strs ["CHECKSUM 0x" ++ hexByte 10]
           else AnnLabels.strs ["CHECKSUM Invalid", "Invalid", "I"]⟩]) := by
  constructor
  · with_unfolding_all rfl
  · exact (checksum_C5 ⟨(1 : ℚ) / 100, false, 0⟩ { initState with datas := [1, 2, 3, 4] }
      (bitsEdges 0 (byteBits 10))).2.1 10 (0, 1088) []
      ((read_byte ((1 : ℚ) / 100) (bitsEdges 0 (byteBits 10))).2)
      (by with_unfolding_all rfl)

theorem payloadLabel_eq (i : Nat) (r : PyVal × (Nat × Nat)) (es : List Nat) :
    payloadLabel i r es = (Outc.ok () es, plList i r) := by
  rcases r with ⟨rv, ra⟩
  cases rv with
  | pyBytes v =>
    by_cases hi : i = 0
    · simp [payloadLabel, plList, hi, emit]
    · simp [payloadLabel, plList, hi, emit]
  | pyInt n => rfl

theorem read_datas_cons (interval_ms : ℚ) (i n : Nat) {e0 e1 e2 : List Nat}
    {r : PyVal × (Nat × Nat)} {rs : List (PyVal × (Nat × Nat))} {a b : List Annot}
    (h : read_byte interval_ms e0 = (Outc.ok r e1, a))
    (hrec : read_datas interval_ms (i + 1) n e1 = (Outc.ok rs e2, b)) :
    read_datas interval_ms i (n + 1) e0 =
      (Outc.ok (r :: rs) e2, a ++ (plList i r ++ b)) := by
  rw [read_datas, mbind_ok h]
  rw [mbind_ok (payloadLabel_eq i r e1)]
  rw [mbind_ok hrec]
  simp [mpure]

/-- Claim C7: during the payload phase, each of the 4 byte slots is read
unconditionally; a valid byte is appended to the payload list and gets the
Function label at index 0 and the Args label at indices 1-3, an invalid
byte is skipped from the payload list (which may therefore hold fewer than
4 entries), and the machine moves to the Data state after exactly 4 byte
reads. -/
theorem payload_C7 (c : Ctx) (st : DecState)
    (e0 e1 e2 e3 e4 : List Nat) (r1 r2 r3 r4 : PyVal × (Nat × Nat))
    (a1 a2 a3 a4 : List Annot)
    (h1 : read_byte c.interval_ms e0 = (Outc.ok r1 e1, a1))
    (h2 : read_byte c.interval_ms e1 = (Outc.ok r2 e2, a2))
    (h3 : read_byte c.interval_ms e2 = (Outc.ok r3 e3, a3))
    (h4 : read_byte c.interval_ms e3 = (Outc.ok r4 e4, a4)) :
    startStep c st e0 =
      (Outc.ok
        { st with
          datas := [r1, r2, r3, r4].filterMap fun r => pyValValid r.1,
          datas_anchors :=
            ([r1, r2, r3, r4].filter fun r => (pyValValid r.1).isSome).map fun r => r.2,
          lastAnchor := r4.2, state := Status.DATA } e4,
       a1 ++ (plList 0 r1 ++ (a2 ++ (plList 1 r2 ++ (a3 ++ (plList 2 r3 ++
         (a4 ++ (plList 3 r4 ++
           [⟨r1.2.1, r4.2.2, Ann.DATA, AnnLabels.strs ["Data[0-3]", "D"]⟩])))))))) := by
  have hd4 := read_datas_cons c.interval_ms 3 0 h4 (by rfl)
  have hd3 := read_datas_cons c.interval_ms 2 1 h3 hd4
  have hd2 := read_datas_cons c.interval_ms 1 2 h2 hd3
  have hd1 := read_datas_cons c.interval_ms 0 3 h1 hd2
  rw [startStep, mbind_ok hd1]
  simp [mpure, emit, mbind, List.append_assoc]

theorem payload_C7_witness :
    read_byte ((1 : ℚ) / 100) w7e0 =
      (Outc.ok (PyVal.pyBytes 5, (0, w7n1)) w7e1, (read_byte ((1 : ℚ) / 100) w7e0).2) ∧
    read_byte ((1 : ℚ) / 100) w7e1 =
      (Outc.ok (PyVal.pyInt (-1), (w7n1, w7n2)) w7e2, (read_byte ((1 : ℚ) / 100) w7e1).2) ∧
    read_byte ((1 : ℚ) / 100) w7e2 =
      (Outc.ok (PyVal.pyBytes 7, (w7n2, w7n3)) w7e3, (read_byte ((1 : ℚ) / 100) w7e2).2) ∧
    read_byte ((1 : ℚ) / 100) w7e3 =
      (Outc.ok (PyVal.pyBytes 9, (w7n3, w7n4)) [], (read_byte ((1 : ℚ) / 100) w7e3).2) ∧
    startStep ⟨(1 : ℚ) / 100, false, 0⟩ initState w7e0 =
      (Outc.ok
        { initState with
          datas := [5, 7, 9],
          datas_anchors := [(0, w7n1), (w7n2, w7n3), (w7n3, w7n4)],
          lastAnchor := (w7n3, w7n4), state := Status.DATA } [],
       (read_byte ((1 : ℚ) / 100) w7e0).2 ++
         (plList 0 (PyVal.pyBytes 5, (0, w7n1)) ++
          ((read_byte ((1 : ℚ) / 100) w7e1).2 ++
           (plList 1 (PyVal.pyInt (-1), (w7n1, w7n2)) ++
            ((read_byte ((1 : ℚ) / 100) w7e2).2 ++
             (plList 2 (PyVal.pyBytes 7, (w7n2, w7n3)) ++
              ((read_byte ((1 : ℚ) / 100) w7e3).2 ++
               (plList 3 (PyVal.pyBytes 9, (w7n3, w7n4)) ++
                [⟨0, w7n4, Ann.DATA, AnnLabels.strs ["Data[0-3]", "D"]⟩])))))))) := by
  refine ⟨by with_unfolding_all rfl, by with_unfolding_all rfl, by with_unfolding_all rfl,
    by with_unfolding_all rfl, ?_⟩
  exact payload_C7 ⟨(1 : ℚ) / 100, false, 0⟩ initState w7e0 w7e1 w7e2 w7e3 []
    (PyVal.pyBytes 5, (0, w7n1)) (PyVal.pyInt (-1), (w7n1, w7n2))
    (PyVal.pyBytes 7, (w7n2, w7n3)) (PyVal.pyBytes 9, (w7n3, w7n4))
    ((read_byte ((1 : ℚ) / 100) w7e0).2) ((read_byte ((1 : ℚ) / 100) w7e1).2)
    ((read_byte ((1 : ℚ) / 100) w7e2).2) ((read_byte ((1 : ℚ) / 100) w7e3).2)
    (by with_unfolding_all rfl) (by with_unfolding_all rfl)
    (by with_unfolding_all rfl) (by with_unfolding_all rfl)

/-- Claim C1 (code bug): on a preamble whose low pulse lasts 3 ms (outside
4 ms ± 10%), `is_preamble` correctly classifies the pair as invalid and
returns `-1`, but the Idle step still emits the `Preamble` label (never
`Invalid`), because `decode` tests `if value:` and `-1` is truthy in
Python; the machine then moves to the start-code state as claimed. -/
theorem preamble_C1_bug :
    is_preamble ((1 : ℚ) / 100) [0, 300, 1100] =
      (Outc.ok ((-1 : Int), (0, 1100)) [], []) ∧
    decode ⟨100000, 0⟩ 1 [0, 300, 1100] =
      (Outc.ok
        { initState with
          state := Status.PREAMBLE, preable_anchor := (0, 1100),
          lastAnchor := (0, 1100) } [],
       [⟨0, 1100, Ann.PREAMBLE, AnnLabels.strs ["Preamble", "P"]⟩]) := by
  constructor
  · with_unfolding_all rfl
  · with_unfolding_all rfl

/-- Claim C2 (code bug): a missing sample rate does fail at startup with
no output, but it is not the only fatal condition: on a packet whose
start byte is Invalid while statistics are enabled and payload plus
checksum match the target, the statistics comparison evaluates
`int.from_bytes(-1, 'big')` and raises `TypeError`. -/
theorem fatal_C2_bug :
    decode ⟨0, 0⟩ 5 crashEdges = (Outc.err PyErr.samplerateError, []) ∧
    (decode ⟨100000, 0x01020304⟩ 5 crashEdges).1 = Outc.err PyErr.typeError := by
  constructor
  · rfl
  · with_unfolding_all rfl

/-- Claim C6 (code bug): statistics are enabled iff `target_data` is
non-zero, but on a completed packet whose payload matches the target and
whose checksum flag holds while the start code is Invalid (`-1`), the
pass/fail accounting raises `TypeError` from `int.from_bytes` instead of
incrementing the fail counter. -/
theorem stats_C6_bug :
    (mkCtx ⟨100000, 0x01020304⟩).is_statistic = true ∧
    (mkCtx ⟨100000, 0⟩).is_statistic = false ∧
    sumStep (mkCtx ⟨100000, 0x01020304⟩)
      { initState with
        state := Status.SUM, datas := [1, 2, 3, 4],
        checksum_invalid := true, start_code := PyVal.pyInt (-1) } [5000] =
      (Outc.err PyErr.typeError, []) := by
  refine ⟨rfl, rfl, ?_⟩
  with_unfolding_all rfl

/-- Claim C3 is false as stated: after a fully valid packet the machine is
back in Idle with the payload list and checksum flag still holding the
packet's values, and a second packet whose checksum byte fails to decode
is counted as a statistics PASS using the first packet's stale flag. -/
theorem reset_C3_cex :
    (okState (decode ⟨100000, 0x01020304⟩ 5 twoPacketEdges)).map
        (fun st => (st.state, st.datas, st.checksum_invalid, st.pass_num, st.total)) =
      some (Status.IDLE, [1, 2, 3, 4], true, 1, 1) ∧
    (okState (decode ⟨100000, 0x01020304⟩ 10 twoPacketEdges)).map
        (fun st => (st.pass_num, st.fail_num, st.total)) =
      some (2, 0, 2) := by
  constructor
  · with_unfolding_all rfl
  · with_unfolding_all rfl

theorem dataStep_invalid (c : Ctx) (st : DecState) {edges rest : List Nat}
    {n : Int} {a : Nat × Nat} {anns : List Annot}
    (h : read_byte c.interval_ms edges = (Outc.ok (PyVal.pyInt n, a) rest, anns)) :
    dataStep c st edges =
      (Outc.ok { st with lastAnchor := a, state := Status.SUM } rest, anns) := by
  rw [dataStep, mbind_ok h]
  simp [mpure]

/-- Claim C3 (amended): the Checksum-to-Idle transition resets no
packet-scoped state: it only increments the counters and returns to Idle,
leaving payload list, anchors, start code and checksum flag in place (they
are only overwritten by the corresponding steps of the next packet), and
a checksum byte that fails to decode leaves the previous packet's
checksum flag in force. -/
theorem reset_C3_amended (c : Ctx) (st : DecState) (edges : List Nat) :
    (∀ st' rest anns, sumStep c st edges = (Outc.ok st' rest, anns) →
        st'.state = Status.IDLE ∧ st'.datas = st.datas ∧
        st'.datas_anchors = st.datas_anchors ∧ st'.start_code = st.start_code ∧
        st'.checksum_invalid = st.checksum_invalid ∧ st'.total = st.total + 1) ∧
    (∀ n a rest anns,
        read_byte c.interval_ms edges = (Outc.ok (PyVal.pyInt n, a) rest, anns) →
        dataStep c st edges =
          (Outc.ok { st with lastAnchor := a, state := Status.SUM } rest, anns)) := by
  constructor
  · intro st' rest anns h
    cases edges with
    | nil =>
      rw [show sumStep c st [] = (Outc.stop, []) from rfl] at h
      simp at h
    | cons m rest' =>
      simp only [sumStep, mbind, wait] at h
      by_cases hstat : c.is_statistic
      · simp only [hstat, if_true] at h
        cases htb : toBytes4 c.target_data with
        | none => simp [htb, raiseErr] at h
        | some tb =>
          simp only [htb] at h
          cases hpc : statPassCond { st with total := st.total + 1 } tb with
          | error e => simp [hpc, raiseErr] at h
          | ok passed =>
            simp only [hpc] at h
            simp only [mbind, emit, mpure] at h
            rw [Prod.mk.injEq] at h
            obtain ⟨h1, _⟩ := h
            cases passed
            · simp only [Bool.false_eq_true, if_false] at h1
              injection h1 with ha hb
              subst ha
              exact ⟨rfl, rfl, rfl, rfl, rfl, rfl⟩
            · simp only [if_true] at h1
              injection h1 with ha hb
              subst ha
              exact ⟨rfl, rfl, rfl, rfl, rfl, rfl⟩
      · simp only [hstat, Bool.false_eq_true, if_false, mpure] at h
        rw [Prod.mk.injEq] at h
        obtain ⟨h1, _⟩ := h
        injection h1 with ha hb
        subst ha
        exact ⟨rfl, rfl, rfl, rfl, rfl, rfl⟩
  · intro n a rest anns h
    exact dataStep_invalid c st h

theorem reset_C3_amended_witness :
    sumStep ⟨(1 : ℚ) / 100, false, 0⟩ c3wState [7] = (Outc.ok c3wState' [], []) ∧
    (c3wState'.state = Status.IDLE ∧ c3wState'.datas = c3wState.datas ∧
     c3wState'.datas_anchors = c3wState.datas_anchors ∧
     c3wState'.start_code = c3wState.start_code ∧
     c3wState'.checksum_invalid = c3wState.checksum_invalid ∧
     c3wState'.total = c3wState.total + 1) := by
  refine ⟨rfl, ?_⟩
  exact (reset_C3_amended ⟨(1 : ℚ) / 100, false, 0⟩ c3wState [7]).1 c3wState' [] [] rfl

/-- Claim C4 is false as stated: decoding a preamble and a valid start
byte emits the start-code label spanning all eight of its bits, which
overlaps the bit labels emitted just before it, so the emitted spans are
neither non-overlapping nor monotonically non-decreasing. -/
theorem spans_C4_cex : ¬ spansOrdered (decode ⟨100000, 0⟩ 2 c4Edges).2 := by
  have h : (decode ⟨100000, 0⟩ 2 c4Edges).2 =
      [⟨0, 1200, Ann.PREAMBLE, AnnLabels.strs ["Preamble", "P"]⟩,
       ⟨1200, 1312, Ann.BIT, AnnLabels.strs ["0"]⟩,
       ⟨1312, 1520, Ann.BIT, AnnLabels.strs ["1"]⟩,
       ⟨1520, 1632, Ann.BIT, AnnLabels.strs ["0"]⟩,
       ⟨1632, 1744, Ann.BIT, AnnLabels.strs ["0"]⟩,
       ⟨1744, 1952, Ann.BIT, AnnLabels.strs ["1"]⟩,
       ⟨1952, 2160, Ann.BIT, AnnLabels.strs ["1"]⟩,
       ⟨2160, 2272, Ann.BIT, AnnLabels.strs ["0"]⟩,
       ⟨2272, 2384, Ann.BIT, AnnLabels.strs ["0"]⟩,
       ⟨1200, 2384, Ann.START, AnnLabels.strs ["Start (0x4C)", "Start", "S"]⟩] := by
    with_unfolding_all rfl
  rw [h]
  simp [spansOrdered, List.chain'_cons, List.chain'_singleton]

theorem mgoodAt_bind {α β : Type} {lo : Nat} {x : M α} {P : α → Nat → Prop}
    {f : α → M β} {Q : β → Nat → Prop}
    (hx : MGoodAt lo x P)
    (hf : ∀ a hi, lo ≤ hi → P a hi → MGoodAt hi (f a) Q) :
    MGoodAt lo (mbind x f) Q := by
  intro edges hs hlo
  obtain ⟨hxa, hxo⟩ := hx edges hs hlo
  rcases hprod : x edges with ⟨xo, xanns⟩
  rw [hprod] at hxa
  cases xo with
  | ok a es1 =>
    obtain ⟨hi, hlohi, hs1, hbound, hP⟩ := hxo a es1 (by rw [hprod])
    obtain ⟨hfa, hfo⟩ := hf a hi hlohi hP es1 hs1 hbound
    have hmb : mbind x f edges = ((f a es1).1, xanns ++ (f a es1).2) := by
      simp [mbind, hprod]
    rw [hmb]
    constructor
    · intro ann hann
      rcases List.mem_append.1 hann with hmem | hmem
      · exact hxa ann hmem
      · exact hfa ann hmem
    · intro b rest hb
      obtain ⟨hi2, hhi2, hs2, hb2, hQ⟩ := hfo b rest hb
      exact ⟨hi2, le_trans hlohi hhi2, hs2, hb2, hQ⟩
  | stop =>
    have hmb : mbind x f edges = (Outc.stop, xanns) := by simp [mbind, hprod]
    rw [hmb]
    refine ⟨hxa, ?_⟩
    intro b rest hb
    simp at hb
  | err e =>
    have hmb : mbind x f edges = (Outc.err e, xanns) := by simp [mbind, hprod]
    rw [hmb]
    refine ⟨hxa, ?_⟩
    intro b rest hb
    simp at hb

theorem mgoodAt_wait (lo : Nat) (c : WaitCond) :
    MGoodAt lo (wait c) fun n hi => lo ≤ n ∧ hi = n := by
  intro edges hs hlo
  cases edges with
  | nil =>
    constructor
    · intro a ha
      simp [wait] at ha
    · intro a rest h
      simp [wait] at h
  | cons m rest =>
    constructor
    · intro a ha
      simp [wait] at ha
    · intro a rest' h
      simp only [wait] at h
      rw [Outc.ok.injEq] at h
      obtain ⟨ha, hr⟩ := h
      subst ha; subst hr
      obtain ⟨hm, hrest⟩ := List.sorted_cons.mp hs
      exact ⟨m, hlo m (List.mem_cons_self m rest), hrest, hm,
        hlo m (List.mem_cons_self m rest), rfl⟩

theorem mgoodAt_pure {α : Type} {lo : Nat} {P : α → Nat → Prop} (a : α) (h : P a lo) :
    MGoodAt lo (mpure a) P := by
  intro edges hs hlo
  constructor
  · intro x hx
    simp [mpure] at hx
  · intro b rest hb
    simp only [mpure] at hb
    rw [Outc.ok.injEq] at hb
    obtain ⟨hb1, hb2⟩ := hb
    subst hb1; subst hb2
    exact ⟨lo, le_refl lo, hs, hlo, h⟩

theorem mgoodAt_emit {lo : Nat} (ann : Annot) (hle : ann.ss ≤ ann.es) :
    MGoodAt lo (emit ann) fun _ hi => hi = lo := by
  intro edges hs hlo
  constructor
  · intro x hx
    simp [emit] at hx
    rw [hx]
    exact hle
  · intro b rest hb
    simp only [emit] at hb
    rw [Outc.ok.injEq] at hb
    obtain ⟨_, hb2⟩ := hb
    subst hb2
    exact ⟨lo, le_refl lo, hs, hlo, rfl⟩

theorem mgoodAt_raiseErr {α : Type} {lo : Nat} {P : α → Nat → Prop} (e : PyErr) :
    MGoodAt lo (raiseErr e) P := by
  intro edges hs hlo
  constructor
  · intro x hx
    simp [raiseErr] at hx
  · intro b rest hb
    simp [raiseErr] at hb

theorem anchorsChained_mono {lo lo' : Nat} {l : List (Nat × Nat)} {hi : Nat}
    (hle : lo' ≤ lo) (h : anchorsChained lo l hi) : anchorsChained lo' l hi := by
  cases l with
  | nil => exact le_trans hle h
  | cons a rest => exact ⟨le_trans hle h.1, h.2.1, h.2.2⟩

theorem anchorsChained_head_last :
    ∀ (l : List (Nat × Nat)) (lo hi : Nat), anchorsChained lo l hi → l ≠ [] →
    ∀ d : Nat × Nat,
    lo ≤ (l.headD d).1 ∧ (l.headD d).1 ≤ (l.getLastD d).2 ∧ (l.getLastD d).2 ≤ hi := by
  intro l
  induction l with
  | nil =>
    intro lo hi h hne d
    exact absurd rfl hne
  | cons a rest ih =>
    intro lo hi h hne d
    obtain ⟨h1, h2, h3⟩ := h
    cases rest with
    | nil =>
      simp only [List.headD_cons, List.getLastD_cons, List.getLastD_nil]
      exact ⟨h1, h2, h3⟩
    | cons b rest2 =>
      obtain ⟨ih1, ih2, ih3⟩ := ih a.2 hi h3 (by simp) a
      simp only [List.headD_cons] at ih1 ih2 ⊢
      simp only [List.getLastD_cons] at ih2 ih3 ⊢
      exact ⟨h1, le_trans h2 (le_trans ih1 ih2), ih3⟩

theorem mgood_read_logic_level (lo : Nat) (ivms : ℚ) :
    MGoodAt lo (read_logic_level ivms)
      fun r hi => lo ≤ r.2.1 ∧ r.2.1 ≤ r.2.2 ∧ r.2.2 ≤ hi := by
  unfold read_logic_level
  refine mgoodAt_bind (mgoodAt_wait lo .l) ?_
  intro s1 h1 hle1 hP1
  refine mgoodAt_bind (mgoodAt_wait h1 .h) ?_
  intro s2 h2 hle2 hP2
  refine mgoodAt_bind (mgoodAt_wait h2 .f) ?_
  intro s3 h3 hle3 hP3
  apply mgoodAt_pure
  obtain ⟨ha1, hb1⟩ := hP1
  obtain ⟨ha2, hb2⟩ := hP2
  obtain ⟨ha3, hb3⟩ := hP3
  dsimp only
  exact ⟨ha1, by omega, by omega⟩

theorem headD_map_anchor {γ : Type} (bits : List (γ × (Nat × Nat))) (hne : bits ≠ [])
    (d : γ × (Nat × Nat)) (d2 : Nat × Nat) :
    (bits.map fun r => r.2).headD d2 = (bits.headD d).2 := by
  cases bits with
  | nil => exact absurd rfl hne
  | cons a rest => rfl

theorem getLastD_map_anchor {γ : Type} :
    ∀ (bits : List (γ × (Nat × Nat))), bits ≠ [] →
    ∀ (d : γ × (Nat × Nat)) (d2 : Nat × Nat),
    (bits.map fun r => r.2).getLastD d2 = (bits.getLastD d).2 := by
  intro bits
  induction bits with
  | nil =>
    intro h
    exact absurd rfl h
  | cons a rest ih =>
    intro _ d d2
    cases rest with
    | nil => rfl
    | cons b rest2 =>
      have hrec := ih (by simp) a a.2
      simp only [List.map_cons, List.getLastD_cons] at hrec ⊢
      exact hrec

theorem mgood_read_bits (ivms : ℚ) :
    ∀ (n lo : Nat),
    MGoodAt lo (read_bits ivms n)
      fun results hi =>
        results.length = n ∧ anchorsChained lo (results.map fun r => r.2) hi := by
  intro n
  induction n with
  | zero =>
    intro lo
    unfold read_bits
    exact mgoodAt_pure [] ⟨rfl, le_refl lo⟩
  | succ n ih =>
    intro lo
    unfold read_bits
    refine mgoodAt_bind (mgood_read_logic_level lo ivms) ?_
    intro r h1 hle1 hP1
    refine mgoodAt_bind (mgoodAt_emit _ hP1.2.1) ?_
    intro _ h2 hle2 hP2
    refine mgoodAt_bind (ih h2) ?_
    intro rs h3 hle3 hP3
    apply mgoodAt_pure
    refine ⟨by simp [hP3.1], ?_⟩
    simp only [List.map_cons]
    refine ⟨hP1.1, hP1.2.1, ?_⟩
    refine anchorsChained_mono ?_ hP3.2
    have := hP1.2.2
    omega

theorem mgood_read_byte (lo : Nat) (ivms : ℚ) :
    MGoodAt lo (read_byte ivms)
      fun r hi => lo ≤ r.2.1 ∧ r.2.1 ≤ r.2.2 ∧ r.2.2 ≤ hi := by
  unfold read_byte
  refine mgoodAt_bind (mgood_read_bits ivms 8 lo) ?_
  intro bits h1 hle1 hP1
  obtain ⟨hlen, hchain⟩ := hP1
  have hne : bits ≠ [] := by
    intro hb
    rw [hb] at hlen
    simp at hlen
  have hne2 : (bits.map fun r => r.2) ≠ [] := by
    simp [hne]
  obtain ⟨c1, c2, c3⟩ :=
    anchorsChained_head_last (bits.map fun r => r.2) lo h1 hchain hne2 (0, 0)
  rw [headD_map_anchor bits hne ((0 : Int), (0, 0)) (0, 0)] at c1 c2
  rw [getLastD_map_anchor bits hne ((0 : Int), (0, 0)) (0, 0)] at c2 c3
  apply mgoodAt_pure
  dsimp only
  exact ⟨c1, c2, c3⟩

theorem mgood_is_preamble (lo : Nat) (ivms : ℚ) :
    MGoodAt lo (is_preamble ivms)
      fun r hi => lo ≤ r.2.1 ∧ r.2.1 ≤ r.2.2 ∧ r.2.2 ≤ hi := by
  unfold is_preamble
  refine mgoodAt_bind (mgoodAt_wait lo .f) ?_
  intro s1 h1 hle1 hP1
  refine mgoodAt_bind (mgoodAt_wait h1 .r) ?_
  intro s2 h2 hle2 hP2
  refine mgoodAt_bind (mgoodAt_wait h2 .f) ?_
  intro s3 h3 hle3 hP3
  apply mgoodAt_pure
  obtain ⟨ha1, hb1⟩ := hP1
  obtain ⟨ha2, hb2⟩ := hP2
  obtain ⟨ha3, hb3⟩ := hP3
  split
  · dsimp only
    exact ⟨ha1, by omega, by omega⟩
  · dsimp only
    exact ⟨ha1, by omega, by omega⟩

theorem mgood_is_start (lo : Nat) (ivms : ℚ) :
    MGoodAt lo (is_start ivms) fun _ _ => True := by
  unfold is_start
  refine mgoodAt_bind (mgood_read_byte lo ivms) ?_
  intro r h1 hle1 hP1
  rcases r with ⟨rv, ra⟩
  obtain ⟨q1, q2, q3⟩ := hP1
  cases rv with
  | pyBytes v =>
    dsimp only
    split
    · refine mgoodAt_bind (mgoodAt_emit _ q2) ?_
      intro _ h2 _ _
      exact mgoodAt_pure _ trivial
    · refine mgoodAt_bind (mgoodAt_emit _ q2) ?_
      intro _ h2 _ _
      exact mgoodAt_pure _ trivial
  | pyInt n =>
    dsimp only
    refine mgoodAt_bind (mgoodAt_emit _ q2) ?_
    intro _ h2 _ _
    exact mgoodAt_pure _ trivial

theorem mgood_payloadLabel (lo i : Nat) (r : PyVal × (Nat × Nat))
    (hle : r.2.1 ≤ r.2.2) :
    MGoodAt lo (payloadLabel i r) fun _ hi => hi = lo := by
  rcases r with ⟨rv, ra⟩
  cases rv with
  | pyBytes v =>
    unfold payloadLabel
    dsimp only
    split
    · exact mgoodAt_emit _ hle
    · exact mgoodAt_emit _ hle
  | pyInt n =>
    unfold payloadLabel
    exact mgoodAt_pure _ rfl

theorem mgood_read_datas (ivms : ℚ) :
    ∀ (n i lo : Nat),
    MGoodAt lo (read_datas ivms i n)
      fun results hi =>
        results.length = n ∧ anchorsChained lo (results.map fun r => r.2) hi := by
  intro n
  induction n with
  | zero =>
    intro i lo
    unfold read_datas
    exact mgoodAt_pure [] ⟨rfl, le_refl lo⟩
  | succ n ih =>
    intro i lo
    unfold read_datas
    refine mgoodAt_bind (mgood_read_byte lo ivms) ?_
    intro r h1 hle1 hP1
    refine mgoodAt_bind (mgood_payloadLabel h1 i r hP1.2.1) ?_
    intro _ h2 hle2 hP2
    refine mgoodAt_bind (ih (i + 1) h2) ?_
    intro rs h3 hle3 hP3
    apply mgoodAt_pure
    refine ⟨by simp [hP3.1], ?_⟩
    simp only [List.map_cons]
    refine ⟨hP1.1, hP1.2.1, ?_⟩
    refine anchorsChained_mono ?_ hP3.2
    have := hP1.2.2
    omega

theorem mgood_idleStep (c : Ctx) (st : DecState) (lo : Nat) :
    MGoodAt lo (idleStep c st) stateWF := by
  unfold idleStep
  refine mgoodAt_bind (mgood_is_preamble lo c.interval_ms) ?_
  intro r h1 hle1 hP1
  have hemit : MGoodAt h1
      (if r.1 ≠ 0 then
         emit ⟨r.2.1, r.2.2, Ann.PREAMBLE, AnnLabels.strs ["Preamble", "P"]⟩
       else
         emit ⟨r.2.1, r.2.2, Ann.PREAMBLE, AnnLabels.strs ["Invalid", "I"]⟩)
      fun _ hi => hi = h1 := by
    split
    · exact mgoodAt_emit _ hP1.2.1
    · exact mgoodAt_emit _ hP1.2.1
  refine mgoodAt_bind hemit ?_
  intro _ h2 hle2 hP2
  apply mgoodAt_pure
  constructor
  · exact hP1.2.1
  · rw [hP2]
    exact hP1.2.2

theorem mgood_preambleStep (c : Ctx) (st : DecState) (lo : Nat)
    (hwf : stateWF st lo) :
    MGoodAt lo (preambleStep c st) stateWF := by
  unfold preambleStep
  refine mgoodAt_bind (mgood_is_start lo c.interval_ms) ?_
  intro sc h1 hle1 _
  apply mgoodAt_pure
  exact ⟨hwf.1, le_trans hwf.2 hle1⟩

theorem mgood_startStep (c : Ctx) (st : DecState) (lo : Nat)
    (hwf : stateWF st lo) :
    MGoodAt lo (startStep c st) stateWF := by
  unfold startStep
  refine mgoodAt_bind (mgood_read_datas c.interval_ms 4 0 lo) ?_
  intro results h1 hle1 hP1
  obtain ⟨hlen, hchain⟩ := hP1
  have hne : results ≠ [] := by
    intro hb
    rw [hb] at hlen
    simp at hlen
  have hne2 : (results.map fun r => r.2) ≠ [] := by
    simp [hne]
  obtain ⟨c1, c2, c3⟩ :=
    anchorsChained_head_last (results.map fun r => r.2) lo h1 hchain hne2 (0, 0)
  rw [headD_map_anchor results hne (PyVal.pyInt 0, (0, 0)) (0, 0)] at c1 c2
  rw [getLastD_map_anchor results hne (PyVal.pyInt 0, (0, 0)) (0, 0)] at c2 c3
  refine mgoodAt_bind (mgoodAt_emit _ c2) ?_
  intro _ h2 hle2 hP2
  apply mgoodAt_pure
  constructor
  · exact le_trans hwf.1 (le_trans hwf.2 (le_trans c1 c2))
  · rw [hP2]
    exact c3

theorem mgood_dataStep (c : Ctx) (st : DecState) (lo : Nat)
    (hwf : stateWF st lo) :
    MGoodAt lo (dataStep c st) stateWF := by
  unfold dataStep
  refine mgoodAt_bind (mgood_read_byte lo c.interval_ms) ?_
  intro r h1 hle1 hP1
  rcases r with ⟨rv, ra⟩
  obtain ⟨q1, q2, q3⟩ := hP1
  cases rv with
  | pyBytes v =>
    dsimp only
    have hemit : MGoodAt h1
        (if (check_sum8 st.datas == v) then
           emit ⟨ra.1, ra.2, Ann.DATA, AnnLabels.strs ["CHECKSUM 0x" ++ hexByte v]⟩
         else
           emit ⟨ra.1, ra.2, Ann.DATA,
             AnnLabels.strs ["CHECKSUM Invalid", "Invalid", "I"]⟩)
        fun _ hi => hi = h1 := by
      split
      · exact mgoodAt_emit _ q2
      · exact mgoodAt_emit _ q2
    refine mgoodAt_bind hemit ?_
    intro _ h2 hle2 hP2
    apply mgoodAt_pure
    constructor
    · exact le_trans hwf.1 (le_trans hwf.2 (le_trans q1 q2))
    · rw [hP2]
      exact q3
  | pyInt n =>
    dsimp only
    apply mgoodAt_pure
    constructor
    · exact le_trans hwf.1 (le_trans hwf.2 (le_trans q1 q2))
    · exact q3

theorem mgood_sumStep (c : Ctx) (st : DecState) (lo : Nat)
    (hwf : stateWF st lo) :
    MGoodAt lo (sumStep c st) stateWF := by
  unfold sumStep
  refine mgoodAt_bind (mgoodAt_wait lo .r) ?_
  intro m h1 hle1 hP1
  by_cases hstat : c.is_statistic
  · simp only [hstat, if_true]
    cases toBytes4 c.target_data with
    | none => exact mgoodAt_raiseErr _
    | some tb =>
      dsimp only
      cases statPassCond { st with total := st.total + 1 } tb with
      | error e => exact mgoodAt_raiseErr _
      | ok passed =>
        dsimp only
        refine mgoodAt_bind (mgoodAt_emit _ ?ss) ?_
        case ss =>
          cases passed
          · exact hwf.1
          · exact hwf.1
        intro _ h2 hle2 hP2
        apply mgoodAt_pure
        cases passed
        · refine ⟨hwf.1, ?_⟩
          rw [hP2]
          exact le_trans hwf.2 hle1
        · refine ⟨hwf.1, ?_⟩
          rw [hP2]
          exact le_trans hwf.2 hle1
  · simp only [hstat, Bool.false_eq_true, if_false]
    apply mgoodAt_pure
    exact ⟨hwf.1, le_trans hwf.2 hle1⟩

theorem mgood_decodeStep (c : Ctx) (st : DecState) (lo : Nat)
    (hwf : stateWF st lo) :
    MGoodAt lo (decodeStep c st) stateWF := by
  unfold decodeStep
  cases hst : st.state
  · exact mgood_idleStep c st lo
  · exact mgood_preambleStep c st lo hwf
  · exact mgood_startStep c st lo hwf
  · exact mgood_dataStep c st lo hwf
  · exact mgood_sumStep c st lo hwf

theorem mgood_decodeLoop (c : Ctx) :
    ∀ (n : Nat) (st : DecState) (lo : Nat), stateWF st lo →
    MGoodAt lo (decodeLoop c n st) stateWF := by
  intro n
  induction n with
  | zero =>
    intro st lo hwf
    unfold decodeLoop
    exact mgoodAt_pure st hwf
  | succ n ih =>
    intro st lo hwf
    unfold decodeLoop
    refine mgoodAt_bind (mgood_decodeStep c st lo hwf) ?_
    intro st' hi hle hwf'
    exact ih st' hi hwf'

/-- Claim C4 (amended): provided the edge source returns non-decreasing
sample indices, every annotation emitted by the decoder satisfies
`start_sample ≤ end_sample`; the emitted spans do overlap, because byte
labels cover their bit labels, the aggregate `Data[0-3]` label covers the
payload byte labels, and the statistics label spans the whole packet. -/
theorem spans_C4_amended (cfg : Config) (fuel : Nat) (edges : List Nat)
    (hs : List.Sorted (· ≤ ·) edges) :
    annsLE (decode cfg fuel edges).2 := by
  by_cases h0 : cfg.samplerate = 0
  · simp [decode, h0, annsLE]
  · have hg := mgood_decodeLoop (mkCtx cfg) fuel initState 0 ⟨le_refl 0, le_refl 0⟩
    have hout := (hg edges hs fun e _ => Nat.zero_le e).1
    simpa [decode, h0] using hout

theorem spans_C4_amended_witness :
    List.Sorted (· ≤ ·) c4Edges ∧ annsLE (decode ⟨100000, 0⟩ 2 c4Edges).2 :=
  ⟨by with_unfolding_all decide,
   spans_C4_amended ⟨100000, 0⟩ 2 c4Edges (by with_unfolding_all decide)⟩

end JomooRC
